import Mathlib

/-!
Verification of the NHD-0216K3Z LCD driver (Python, `NHD_0216K3Z.py`).

The driver is shallowly embedded: every device interaction is a single-byte
write over the I2C channel, so an operation is modelled as an `Eff α`: the
list of bytes written to the transport, in order, together with `some` result
on normal return or `none` when the Python code raises an exception.  A raised
exception keeps the bytes already written (Python writes eagerly), which is
exactly what the failure-semantics claims are about.
-/

namespace NHD0216K3Z

/-- Outcome of a driver operation: the transport bytes written, in order,
and the returned value (`none` models a raised `ValueError`). -/
structure Eff (α : Type) where
  trace : List Nat
  result : Option α
  deriving DecidableEq, Repr

namespace Eff

def bindE {α β : Type} (x : Eff α) (f : α → Eff β) : Eff β :=
  match x.result with
  | none => ⟨x.trace, none⟩
  | some a => ⟨x.trace ++ (f a).trace, (f a).result⟩

instance : Monad Eff where
  pure a := ⟨[], some a⟩
  bind := bindE

/-- An operation that raises before writing anything. -/
def fail {α : Type} : Eff α := ⟨[], none⟩

/-- Emit raw bytes on the channel (models consecutive `write_byte` calls). -/
def emit (bs : List Nat) : Eff Unit := ⟨bs, some ()⟩

end Eff

open Eff

/-- The `special_chars` dictionary of `NHD_0216K3Z`, keyed by Unicode code
point: slot-select codes `'\0'..'\7'` map to `0x00..0x07`, and the fixed
special-symbol entries map to their device byte codes. -/
def special_chars (n : Nat) : Option Nat :=
  if n = 0 then some 0x00
  else if n = 1 then some 0x01
  else if n = 2 then some 0x02
  else if n = 3 then some 0x03
  else if n = 4 then some 0x04
  else if n = 5 then some 0x05
  else if n = 6 then some 0x06
  else if n = 7 then some 0x07
  else if n = 0xA5 then some 0x5C    -- '¥'
  else if n = 0x2192 then some 0x7E  -- '→'
  else if n = 0x2190 then some 0x7F  -- '←'
  else if n = 0xB0 then some 0xDF    -- '°'
  else if n = 0x3B1 then some 0xE0   -- 'α'
  else if n = 0xE4 then some 0xE1    -- 'ä'
  else if n = 0xF1 then some 0xEE    -- 'ñ'
  else if n = 0xF6 then some 0xEF    -- 'ö'
  else if n = 0x3B2 then some 0xE2   -- 'β'
  else if n = 0x190 then some 0xE3   -- 'Ɛ'
  else if n = 0x3BC then some 0xE4   -- 'μ'
  else if n = 0x3C3 then some 0xE5   -- 'σ'
  else if n = 0x3C1 then some 0xE6   -- 'ρ'
  else if n = 0x221A then some 0xE8  -- '√'
  else if n = 0xA2 then some 0xEC    -- '¢'
  else if n = 0x3B8 then some 0xF2   -- 'θ'
  else if n = 0x221E then some 0xF3  -- '∞'
  else if n = 0x3A9 then some 0xF4   -- 'Ω'
  else if n = 0x3A3 then some 0xF6   -- 'Σ'
  else if n = 0x3C0 then some 0xF7   -- 'π'
  else if n = 0xF7 then some 0xFD    -- '÷'
  else if n = 0x25A0 then some 0xFF  -- '■'
  else none

/-- `_get_char_code` on a Unicode code point: the special table first, then
direct ASCII passthrough for `[32,125]` minus backslash (92); otherwise the
Python code raises `ValueError` (modelled as `none`). -/
def getCharCodeN (n : Nat) : Option Nat :=
  match special_chars n with
  | some code => some code
  | none => if 32 ≤ n ∧ n ≤ 125 ∧ n ≠ 92 then some n else none

/-- `_get_char_code` on a character. -/
def _get_char_code (c : Char) : Option Nat := getCharCodeN c.toNat

/-- `_send_cmd(cmd, *params)`: escape byte `0xFE`, the opcode, then each
parameter byte, one channel write per byte. -/
def _send_cmd (cmd : Nat) (params : List Nat) : Eff Unit :=
  emit (0xFE :: cmd :: params)

/-- `write_char_from_code(code)`: rejects values outside `[0, 0xFF]`, else a
single raw byte write. -/
def write_char_from_code (code : Int) : Eff Unit :=
  if code < 0 ∨ code > 0xFF then fail else emit [code.toNat]

/-- `write(msg)`: encode each character in order, writing its byte; an
unsupported character raises after the preceding characters were written. -/
def write : List Char → Eff Unit
  | [] => pure ()
  | c :: cs =>
    match _get_char_code c with
    | none => fail
    | some b => do
      Eff.emit [b]
      write cs

/-- The linear-address computation `pos = (line-1)*0x40 + (column-1)` of
`set_cursor_pos` (nonnegative on the in-range domain, hence `toNat`). -/
def cursorAddress (line column : Int) : Nat :=
  ((line - 1) * 0x40 + (column - 1)).toNat

/-- `set_cursor_pos(line, column)`: bounds check, then the framed command
`0xFE 0x45 pos` with `pos = (line-1)*0x40 + (column-1)`. -/
def set_cursor_pos (line column : Int) : Eff Unit :=
  if column < 1 ∨ column > 16 ∨ line < 1 ∨ line > 2 then fail
  else _send_cmd 0x45 [cursorAddress line column]

/-- `home_cursor()`. -/
def home_cursor : Eff Unit := _send_cmd 0x46 []

/-- `clear_line(line)`: position to column 1, write 16 spaces, reposition. -/
def clear_line (line : Int) : Eff Unit := do
  set_cursor_pos line 1
  write (List.replicate 16 ' ')
  set_cursor_pos line 1

/-- `clear_screen()`. -/
def clear_screen : Eff Unit := _send_cmd 0x51 []

/-- `write_line(msg, line, centered)`: clear the line, compute the start
column (`(16 - length) // 2` is Python floor division, hence `Int.fdiv`),
position the cursor, write the message, return whether it fits. -/
def write_line (msg : String) (line : Int) (centered : Bool) : Eff Bool := do
  clear_line line
  let length : Int := (msg.length : Int)
  let startCol : Int := if centered then 1 + (16 - length).fdiv 2 else 1
  set_cursor_pos line startCol
  write msg.data
  pure (decide (length ≤ 16))

/-- The whitespace set of Python's `str.split()` with no argument: the code
points CPython's `Py_UNICODE_ISSPACE` accepts — tab, line feed, vertical
tab, form feed, carriage return, the separators U+001C–U+001F, space, next
line U+0085, no-break space U+00A0, ogham space U+1680, the en/em spaces
U+2000–U+200A, line separator U+2028, paragraph separator U+2029, narrow
no-break space U+202F, medium mathematical space U+205F, and ideographic
space U+3000. -/
def isPySpace (c : Char) : Bool :=
  c.toNat ∈ [0x09, 0x0A, 0x0B, 0x0C, 0x0D, 0x1C, 0x1D, 0x1E, 0x1F, 0x20,
    0x85, 0xA0, 0x1680, 0x2000, 0x2001, 0x2002, 0x2003, 0x2004, 0x2005,
    0x2006, 0x2007, 0x2008, 0x2009, 0x200A, 0x2028, 0x2029, 0x202F, 0x205F,
    0x3000]

/-- Helper for `pythonSplit`: `acc` is the current word, reversed. -/
def pythonSplitAux : List Char → List Char → List (List Char)
  | [], acc => if acc = [] then [] else [acc.reverse]
  | c :: cs, acc =>
    if isPySpace c then
      if acc = [] then pythonSplitAux cs []
      else acc.reverse :: pythonSplitAux cs []
    else pythonSplitAux cs (c :: acc)

/-- Python's `str.split()` with no argument: any run of whitespace is a
separator, leading and trailing whitespace is discarded. -/
def pythonSplit (s : List Char) : List (List Char) := pythonSplitAux s []

/-- The word loop of `disp_msg` in preserve-words mode, carrying the running
count `i`; returns the final value of `i`. -/
def dispWords : List (List Char) → Nat → Eff Nat
  | [], i => pure i
  | w :: ws, i => do
    if i ≠ 16 ∧ i ≠ 0 then write [' '] else pure ()
    if i + w.length > 16 then set_cursor_pos 2 1 else pure ()
    write w
    dispWords ws (i + w.length + 1)

/-- The character loop of `disp_msg` in character mode: `i` is the index of
the next character of the original message. -/
def dispChars : List Char → Nat → Eff Unit
  | [], _ => pure ()
  | c :: cs, i => do
    if i = 16 then set_cursor_pos 2 1 else pure ()
    write [c]
    dispChars cs (i + 1)

/-- `disp_msg(msg, preserve_words)`: clear the screen, home the cursor, then
either the word-preserving or the character-streaming layout; returns the
fits indicator. -/
def disp_msg (msg : String) (preserveWords : Bool) : Eff Bool := do
  clear_screen
  home_cursor
  if preserveWords then
    let i ← dispWords (pythonSplit msg.data) 0
    pure (decide (i ≤ 33))
  else do
    dispChars msg.data 0
    pure (decide (msg.length ≤ 32))

/-- `load_custom_character(custom_char_slot, bitmap)`: validates the slot and
the bitmap (the source tests each row with `i < 0x1F and i >= 0`, a strict
upper bound), then sends `0xFE 0x54 slot row_0 ... row_7`. -/
def load_custom_character (slot : Int) (bitmap : List Int) : Eff Unit :=
  if slot < 0 ∨ slot > 7 then fail
  else if bitmap.length ≠ 8 ∨ ¬ (∀ i ∈ bitmap, i < 0x1F ∧ 0 ≤ i) then fail
  else _send_cmd 0x54 (slot.toNat :: bitmap.map Int.toNat)

/-- The `for i in range(spaces)` loop of the shift operations: issue the
framed command `cmd` once per iteration. -/
def repeatCmd (cmd : Nat) : Nat → Eff Unit
  | 0 => pure ()
  | k + 1 => do
    _send_cmd cmd []
    repeatCmd cmd k

/-- `shift_cursor_left(spaces)`: `range(spaces)` is empty for `spaces ≤ 0`. -/
def shift_cursor_left (spaces : Int) : Eff Unit := repeatCmd 0x49 spaces.toNat

/-- `shift_cursor_right(spaces)`. -/
def shift_cursor_right (spaces : Int) : Eff Unit := repeatCmd 0x4A spaces.toNat

/-- `shift_display_left(spaces)`. -/
def shift_display_left (spaces : Int) : Eff Unit := repeatCmd 0x55 spaces.toNat

/-- `shift_display_right(spaces)`. -/
def shift_display_right (spaces : Int) : Eff Unit := repeatCmd 0x56 spaces.toNat

/-- `set_contrast(contrast)`. -/
def set_contrast (contrast : Int) : Eff Unit :=
  if contrast < 1 ∨ contrast > 50 then fail else _send_cmd 0x52 [contrast.toNat]

/-- `set_backlight_brightness(brightness)`. -/
def set_backlight_brightness (brightness : Int) : Eff Unit :=
  if brightness < 1 ∨ brightness > 8 then fail else _send_cmd 0x53 [brightness.toNat]

/-! Specification-side definitions, written from the spec's sentences, used
to state the claims against the embedded code. -/

/-- The device byte each character of a fully supported text encodes to. -/
def charBytes (l : List Char) : List Nat :=
  l.map fun c => (_get_char_code c).getD 0

/-- The code points of the special-symbol table keys (excluding the eight
slot-select code points 0–7). -/
def specialSymbolCodePoints : List Nat :=
  [0xA5, 0x2192, 0x2190, 0xB0, 0x3B1, 0xE4, 0xF1, 0xF6, 0x3B2, 0x190,
   0x3BC, 0x3C3, 0x3C1, 0x221A, 0xA2, 0x3B8, 0x221E, 0x3A9, 0x3A3, 0x3C0,
   0xF7, 0x25A0]

/-- The spec's legal input set for the encoder: slot-select code points 0–7,
the special-symbol table keys, and ASCII `[32,125]` minus backslash (92). -/
def supportedCodePoint (n : Nat) : Prop :=
  n ≤ 7 ∨ n ∈ specialSymbolCodePoints ∨ (32 ≤ n ∧ n ≤ 125 ∧ n ≠ 92)

instance (n : Nat) : Decidable (supportedCodePoint n) := by
  unfold supportedCodePoint; infer_instance

/-- The start column the spec prescribes for `write_line`: 1 when
left-aligned, `1 + floor((16 - len) / 2)` when centered. -/
def startColumn (msgLen : Nat) (centered : Bool) : Int :=
  if centered then 1 + (16 - (msgLen : Int)).fdiv 2 else 1

/-- The bytes `clear_line(line)` puts on the wire for an in-range line:
position to column 1, sixteen spaces, position to column 1 again. -/
def lineClearBytes (line : Int) : List Nat :=
  [0xFE, 0x45, cursorAddress line 1] ++ List.replicate 16 0x20 ++
    [0xFE, 0x45, cursorAddress line 1]

/-- Word-mode separator: one space before a word unless the running count is
exactly 16 or 0. -/
def sepBytes (i : Nat) : List Nat :=
  if i ≠ 16 ∧ i ≠ 0 then [0x20] else []

/-- Word-mode forced line break: reposition to line 2 column 1 before a word
that would cross the line boundary. -/
def jumpBytes (i : Nat) (w : List Char) : List Nat :=
  if i + w.length > 16 then [0xFE, 0x45, 0x40] else []

/-- The wire bytes of the word-mode layout walk, as the spec describes it:
separator, forced break, then the word, with the count advancing by
`len(word) + 1`. -/
def wordLayoutTrace : List (List Char) → Nat → List Nat
  | [], _ => []
  | w :: ws, i =>
    sepBytes i ++ jumpBytes i w ++ charBytes w ++ wordLayoutTrace ws (i + w.length + 1)

/-- The final running count of the word-mode walk: every word advances the
count by `len(word) + 1` starting from 0. -/
def finalCount (ws : List (List Char)) : Nat :=
  ws.foldl (fun i w => i + w.length + 1) 0

/-! Helper lemmas about the effect monad and the individual operations. -/

@[simp] theorem bind_eq_bindE {α β : Type} (x : Eff α) (f : α → Eff β) :
    x >>= f = Eff.bindE x f := rfl

@[simp] theorem pure_eff {α : Type} (a : α) : (pure a : Eff α) = ⟨[], some a⟩ := rfl

@[simp] theorem bindE_mk_some {α β : Type} (t : List Nat) (a : α) (f : α → Eff β) :
    Eff.bindE ⟨t, some a⟩ f = ⟨t ++ (f a).trace, (f a).result⟩ := rfl

@[simp] theorem bindE_mk_none {α β : Type} (t : List Nat) (f : α → Eff β) :
    Eff.bindE ⟨t, none⟩ f = ⟨t, none⟩ := rfl

@[simp] theorem bindE_emit {β : Type} (bs : List Nat) (f : Unit → Eff β) :
    Eff.bindE (Eff.emit bs) f = ⟨bs ++ (f ()).trace, (f ()).result⟩ := rfl

@[simp] theorem bindE_fail {α β : Type} (f : α → Eff β) :
    Eff.bindE (Eff.fail : Eff α) f = ⟨[], none⟩ := rfl

@[simp] theorem fail_trace {α : Type} : (Eff.fail : Eff α).trace = [] := rfl

@[simp] theorem fail_result {α : Type} : (Eff.fail : Eff α).result = (none : Option α) := rfl

@[simp] theorem emit_trace (bs : List Nat) : (Eff.emit bs).trace = bs := rfl

@[simp] theorem emit_result (bs : List Nat) : (Eff.emit bs).result = some () := rfl

/-- A code point that is neither a slot-select code nor a special-symbol key
misses the special-character dictionary. -/
theorem special_chars_eq_none_of_not_key {n : Nat}
    (h : ¬ (n ≤ 7 ∨ n ∈ specialSymbolCodePoints)) : special_chars n = none := by
  push_neg at h
  obtain ⟨h7, hmem⟩ := h
  simp only [specialSymbolCodePoints, List.mem_cons, List.not_mem_nil, or_false,
    not_or] at hmem
  obtain ⟨m1, m2, m3, m4, m5, m6, m7, m8, m9, m10, m11, m12, m13, m14, m15,
    m16, m17, m18, m19, m20, m21, m22⟩ := hmem
  simp only [special_chars,
    if_neg (by omega : ¬ (n = 0)), if_neg (by omega : ¬ (n = 1)),
    if_neg (by omega : ¬ (n = 2)), if_neg (by omega : ¬ (n = 3)),
    if_neg (by omega : ¬ (n = 4)), if_neg (by omega : ¬ (n = 5)),
    if_neg (by omega : ¬ (n = 6)), if_neg (by omega : ¬ (n = 7)),
    if_neg m1, if_neg m2, if_neg m3, if_neg m4, if_neg m5, if_neg m6,
    if_neg m7, if_neg m8, if_neg m9, if_neg m10, if_neg m11, if_neg m12,
    if_neg m13, if_neg m14, if_neg m15, if_neg m16, if_neg m17, if_neg m18,
    if_neg m19, if_neg m20, if_neg m21, if_neg m22]

/-- The special-character dictionary hits exactly the slot-select code points
and the special-symbol keys. -/
theorem special_chars_isSome_iff (n : Nat) :
    (special_chars n).isSome ↔ n ≤ 7 ∨ n ∈ specialSymbolCodePoints := by
  constructor
  · intro h
    by_contra hc
    rw [special_chars_eq_none_of_not_key hc] at h
    simp at h
  · intro h
    rcases h with h7 | hmem
    · interval_cases n <;> decide
    · simp only [specialSymbolCodePoints, List.mem_cons, List.not_mem_nil,
        or_false] at hmem
      rcases hmem with rfl | rfl | rfl | rfl | rfl | rfl | rfl | rfl | rfl |
        rfl | rfl | rfl | rfl | rfl | rfl | rfl | rfl | rfl | rfl | rfl |
        rfl | rfl <;> decide

/-- No special-character key lies in `[8, 125]`. -/
theorem special_chars_eq_none {n : Nat} (h8 : 8 ≤ n) (h125 : n ≤ 125) :
    special_chars n = none := by
  apply special_chars_eq_none_of_not_key
  simp only [specialSymbolCodePoints, List.mem_cons, List.not_mem_nil, or_false]
  omega

/-- Direct ASCII passthrough of the encoder. -/
theorem getCharCodeN_ascii {n : Nat} (h32 : 32 ≤ n) (h125 : n ≤ 125) (h92 : n ≠ 92) :
    getCharCodeN n = some n := by
  unfold getCharCodeN
  rw [special_chars_eq_none (by omega) h125]
  simp [h32, h125, h92]

/-- The encoder succeeds exactly on the spec's legal input set. -/
theorem getCharCodeN_isSome_iff (n : Nat) :
    (getCharCodeN n).isSome ↔ supportedCodePoint n := by
  unfold getCharCodeN supportedCodePoint
  rcases h : special_chars n with _ | code
  · have := (special_chars_isSome_iff n)
    rw [h] at this
    simp only [Option.isSome_none, Bool.false_eq_true, false_iff] at this
    push_neg at this
    constructor
    · intro hs
      split_ifs at hs with hc
      · exact Or.inr (Or.inr hc)
      · simp at hs
    · intro hs
      rcases hs with h7 | hmem | hascii
      · exact absurd this.1 (by omega)
      · exact absurd hmem this.2
      · simp [hascii]
  · have := (special_chars_isSome_iff n).mp (by rw [h]; rfl)
    simpa using Or.imp_right Or.inl this

/-- `write` on a fully supported character list: the encoded bytes, no
exception. -/
theorem write_ok : ∀ (l : List Char), (∀ c ∈ l, (_get_char_code c).isSome) →
    write l = ⟨charBytes l, some ()⟩ := by
  intro l
  induction l with
  | nil => intro _; rfl
  | cons c cs ih =>
    intro h
    have hc : (_get_char_code c).isSome := h c (List.mem_cons_self c cs)
    rcases hb : _get_char_code c with _ | b
    · rw [hb] at hc; simp at hc
    · have ihe := ih (fun d hd => h d (List.mem_cons_of_mem c hd))
      simp [write, hb, ihe, charBytes]

/-- `write` on a list whose first unsupported character sits after a
supported prefix: the prefix bytes are on the wire when the exception is
raised. -/
theorem write_prefix_err : ∀ (pre : List Char) (c : Char) (post : List Char),
    (∀ d ∈ pre, (_get_char_code d).isSome) → _get_char_code c = none →
    write (pre ++ c :: post) = ⟨charBytes pre, none⟩ := by
  intro pre
  induction pre with
  | nil =>
    intro c post _ hc
    simp [write, hc, charBytes, Eff.fail]
  | cons d ds ih =>
    intro c post h hc
    have hd : (_get_char_code d).isSome := h d (List.mem_cons_self d ds)
    rcases hb : _get_char_code d with _ | b
    · rw [hb] at hd; simp at hd
    · have ihe := ih c post (fun e he => h e (List.mem_cons_of_mem d he)) hc
      simp [write, hb, ihe, charBytes]

/-- `set_cursor_pos` on an in-range position. -/
theorem set_cursor_pos_ok {line col : Int}
    (hl1 : 1 ≤ line) (hl2 : line ≤ 2) (hc1 : 1 ≤ col) (hc2 : col ≤ 16) :
    set_cursor_pos line col = Eff.emit [0xFE, 0x45, cursorAddress line col] := by
  unfold set_cursor_pos
  rw [if_neg (by omega)]
  rfl

/-- `clear_line` on an in-range line writes exactly the clear bytes. -/
theorem clear_line_ok {line : Int} (hl1 : 1 ≤ line) (hl2 : line ≤ 2) :
    clear_line line = ⟨lineClearBytes line, some ()⟩ := by
  have h16 : write (List.replicate 16 ' ') = ⟨List.replicate 16 0x20, some ()⟩ := by
    decide
  unfold clear_line
  rw [set_cursor_pos_ok hl1 hl2 (by norm_num) (by norm_num), h16]
  simp [lineClearBytes]

/-- The shift loops issue one complete framed command per iteration. -/
theorem repeatCmd_spec (cmd : Nat) : ∀ k : Nat,
    repeatCmd cmd k = ⟨(List.replicate k [0xFE, cmd]).flatten, some ()⟩ := by
  intro k
  induction k with
  | zero => rfl
  | succ m ih => simp [repeatCmd, _send_cmd, ih, List.replicate_succ]

/-- The word loop on fully supported words produces the spec's layout trace
and threads the running count through `i += len(word) + 1`. -/
theorem dispWords_ok : ∀ (ws : List (List Char)) (i : Nat),
    (∀ w ∈ ws, ∀ c ∈ w, (_get_char_code c).isSome) →
    dispWords ws i =
      ⟨wordLayoutTrace ws i, some (ws.foldl (fun j w => j + w.length + 1) i)⟩ := by
  intro ws
  induction ws with
  | nil => intro i _; rfl
  | cons w ws ih =>
    intro i h
    have hw : write w = ⟨charBytes w, some ()⟩ :=
      write_ok w (h w (List.mem_cons_self w ws))
    have hsp : write [' '] = ⟨[0x20], some ()⟩ := by decide
    have hcur : set_cursor_pos 2 1 = Eff.emit [0xFE, 0x45, 0x40] := by decide
    have ihe := ih (i + w.length + 1) (fun v hv => h v (List.mem_cons_of_mem w hv))
    simp only [dispWords, bind_eq_bindE, hsp, hcur, hw, ihe, wordLayoutTrace,
      sepBytes, jumpBytes, List.foldl_cons]
    split_ifs <;> simp

/-- Once the character loop's index has passed 16 no further repositioning
happens: the remaining characters stream straight through. -/
theorem dispChars_past : ∀ (l : List Char) (i : Nat), 16 < i →
    (∀ c ∈ l, (_get_char_code c).isSome) →
    dispChars l i = ⟨charBytes l, some ()⟩ := by
  intro l
  induction l with
  | nil => intro i _ _; rfl
  | cons c cs ih =>
    intro i hi h
    have hc : (_get_char_code c).isSome := h c (List.mem_cons_self c cs)
    rcases hb : _get_char_code c with _ | b
    · rw [hb] at hc; simp at hc
    · have hwc : write [c] = ⟨[b], some ()⟩ := by simp [write, hb]
      have ihe := ih (i + 1) (by omega) (fun d hd => h d (List.mem_cons_of_mem c hd))
      simp only [dispChars, bind_eq_bindE, if_neg (by omega : ¬ (i = 16)), hwc,
        ihe, bindE_mk_some, charBytes, List.map_cons]
      simp [hb, charBytes]

/-- The character loop started at index `i ≤ 16`: characters stream until
index 16, where a single reposition to line 2 column 1 is inserted, after
which the rest streams through. -/
theorem dispChars_spec : ∀ (l : List Char) (i : Nat), i ≤ 16 →
    (∀ c ∈ l, (_get_char_code c).isSome) →
    dispChars l i =
      ⟨charBytes (l.take (16 - i)) ++
        (if l.length ≤ 16 - i then [] else [0xFE, 0x45, 0x40]) ++
        charBytes (l.drop (16 - i)), some ()⟩ := by
  intro l
  induction l with
  | nil =>
    intro i _ _
    simp [dispChars, charBytes]
  | cons c cs ih =>
    intro i hi h
    have hc : (_get_char_code c).isSome := h c (List.mem_cons_self c cs)
    rcases hb : _get_char_code c with _ | b
    · rw [hb] at hc; simp at hc
    · have hwc : write [c] = ⟨[b], some ()⟩ := by simp [write, hb]
      have htail : ∀ d ∈ cs, (_get_char_code d).isSome :=
        fun d hd => h d (List.mem_cons_of_mem c hd)
      rcases Nat.eq_or_lt_of_le hi with h16 | hlt
      · subst h16
        have hcur : set_cursor_pos 2 1 = Eff.emit [0xFE, 0x45, 0x40] := by decide
        have ihe := dispChars_past cs 17 (by omega) htail
        simp only [dispChars, bind_eq_bindE, if_pos rfl, hcur, hwc, ihe,
          bindE_mk_some, bindE_emit, emit_trace, emit_result]
        simp [charBytes, hb]
      · have ihe := ih (i + 1) (by omega) htail
        have hsub : 16 - i = (16 - (i + 1)) + 1 := by omega
        simp only [dispChars, bind_eq_bindE, if_neg (by omega : ¬ (i = 16)), hwc,
          ihe, bindE_mk_some, pure_eff]
        rw [hsub]
        simp only [List.take_succ_cons, List.drop_succ_cons, List.length_cons,
          charBytes, List.map_cons]
        have hlen : cs.length + 1 ≤ 16 - (i + 1) + 1 ↔ cs.length ≤ 16 - (i + 1) := by
          omega
        split_ifs with h1 h2 h2 <;> simp_all
        omega

/-- Words produced by `pythonSplit` are nonempty and contain no whitespace. -/
theorem pythonSplitAux_words : ∀ (s : List Char) (acc : List Char),
    (∀ c ∈ acc, isPySpace c = false) →
    ∀ w ∈ pythonSplitAux s acc, w ≠ [] ∧ ∀ c ∈ w, isPySpace c = false := by
  intro s
  induction s with
  | nil =>
    intro acc hacc w hw
    unfold pythonSplitAux at hw
    split_ifs at hw with h
    · simp at hw
    · simp only [List.mem_singleton] at hw
      subst hw
      refine ⟨by simpa using h, ?_⟩
      intro c hc
      exact hacc c (by simpa using hc)
  | cons c cs ih =>
    intro acc hacc w hw
    unfold pythonSplitAux at hw
    split_ifs at hw with h1 h2
    · exact ih [] (by simp) w hw
    · rcases List.mem_cons.mp hw with rfl | hw2
      · refine ⟨by simpa using h2, ?_⟩
        intro d hd
        exact hacc d (by simpa using hd)
      · exact ih [] (by simp) w hw2
    · refine ih (c :: acc) ?_ w hw
      intro d hd
      rcases List.mem_cons.mp hd with rfl | hd2
      · simpa using h1
      · exact hacc d hd2

/-- `disp_msg` with `preserve_words=True`, unfolded to its effect chain. -/
theorem disp_msg_true_eq (msg : String) :
    disp_msg msg true =
      Eff.bindE (Eff.emit [0xFE, 0x51]) (fun _ =>
        Eff.bindE (Eff.emit [0xFE, 0x46]) (fun _ =>
          Eff.bindE (dispWords (pythonSplit msg.data) 0)
            (fun i => pure (decide (i ≤ 33))))) := rfl

/-- `disp_msg` with `preserve_words=False`, unfolded to its effect chain. -/
theorem disp_msg_false_eq (msg : String) :
    disp_msg msg false =
      Eff.bindE (Eff.emit [0xFE, 0x51]) (fun _ =>
        Eff.bindE (Eff.emit [0xFE, 0x46]) (fun _ =>
          Eff.bindE (dispChars msg.data 0)
            (fun _ => pure (decide (msg.length ≤ 32))))) := rfl

/-! Claim theorems. -/

/-- Claim C1, counterexample: the claim places the bytes of 'ñ' and 'ö'
inside the run `0xE0..0xE6`, but the encoder returns `0xEE` and `0xEF` for
them (the device's font places them there), both outside that run. -/
theorem special_symbol_run_counterexample :
    _get_char_code 'ñ' = some 0xEE ∧ ¬ (0xE0 ≤ 0xEE ∧ (0xEE : Nat) ≤ 0xE6) ∧
    _get_char_code 'ö' = some 0xEF ∧ ¬ (0xE0 ≤ 0xEF ∧ (0xEF : Nat) ≤ 0xE6) := by
  decide

/-- Claim C1, amended: the encoder returns exactly the byte the source's
`special_chars` table publishes for every special symbol — `¥→0x5C`,
`→→0x7E`, `←→0x7F`, `°→0xDF`, `α→0xE0`, `ä→0xE1`, `β→0xE2`, `Ɛ→0xE3`,
`μ→0xE4`, `σ→0xE5`, `ρ→0xE6`, `ñ→0xEE`, `ö→0xEF`, `√→0xE8`, `¢→0xEC`,
`θ→0xF2`, `∞→0xF3`, `Ω→0xF4`, `Σ→0xF6`, `π→0xF7`, `÷→0xFD`, `■→0xFF`. -/
theorem special_symbol_encoding :
    _get_char_code '¥' = some 0x5C ∧
    _get_char_code '→' = some 0x7E ∧
    _get_char_code '←' = some 0x7F ∧
    _get_char_code '°' = some 0xDF ∧
    _get_char_code 'α' = some 0xE0 ∧
    _get_char_code 'ä' = some 0xE1 ∧
    _get_char_code 'β' = some 0xE2 ∧
    _get_char_code 'Ɛ' = some 0xE3 ∧
    _get_char_code 'μ' = some 0xE4 ∧
    _get_char_code 'σ' = some 0xE5 ∧
    _get_char_code 'ρ' = some 0xE6 ∧
    _get_char_code 'ñ' = some 0xEE ∧
    _get_char_code 'ö' = some 0xEF ∧
    _get_char_code '√' = some 0xE8 ∧
    _get_char_code '¢' = some 0xEC ∧
    _get_char_code 'θ' = some 0xF2 ∧
    _get_char_code '∞' = some 0xF3 ∧
    _get_char_code 'Ω' = some 0xF4 ∧
    _get_char_code 'Σ' = some 0xF6 ∧
    _get_char_code 'π' = some 0xF7 ∧
    _get_char_code '÷' = some 0xFD ∧
    _get_char_code '■' = some 0xFF := by
  decide

/-- Claim C2: the source validates bitmap rows with the strict test
`i < 0x1F`, so a row equal to 31 = 0x1F is rejected with zero transport
writes even though the method's own docstring and error message promise the
inclusive range `0x00..0x1F`; rows up to 30 succeed with the framed command,
and the other validation failures (slot out of `[0,7]`, wrong row count,
negative or over-range row) also write nothing. -/
theorem load_custom_character_row31_bug :
    load_custom_character 0 [31, 0, 0, 0, 0, 0, 0, 0] = Eff.fail ∧
    load_custom_character 0 [30, 0, 0, 0, 0, 0, 0, 0] =
      Eff.emit [0xFE, 0x54, 0, 30, 0, 0, 0, 0, 0, 0, 0] ∧
    load_custom_character 8 [0, 0, 0, 0, 0, 0, 0, 0] = Eff.fail ∧
    load_custom_character 0 [0, 32, 0, 0, 0, 0, 0, 0, 0] = Eff.fail := by
  decide

/-- Claim C5: `set_cursor_pos` raises with zero transport writes unless
`line ∈ {1,2}` and `column ∈ [1,16]`; on the in-range domain it sends the
framed command `0xFE 0x45 ((line-1)*0x40 + (column-1))`, the address map is
injective, and line 2 sits exactly `0x40` above line 1 in every column. -/
theorem set_cursor_pos_spec :
    (∀ line col : Int, ¬ (1 ≤ line ∧ line ≤ 2 ∧ 1 ≤ col ∧ col ≤ 16) →
        set_cursor_pos line col = Eff.fail) ∧
    (∀ line col : Int, 1 ≤ line → line ≤ 2 → 1 ≤ col → col ≤ 16 →
        set_cursor_pos line col = Eff.emit [0xFE, 0x45, cursorAddress line col]) ∧
    (∀ l1 c1 l2 c2 : Int, 1 ≤ l1 → l1 ≤ 2 → 1 ≤ c1 → c1 ≤ 16 →
        1 ≤ l2 → l2 ≤ 2 → 1 ≤ c2 → c2 ≤ 16 →
        cursorAddress l1 c1 = cursorAddress l2 c2 → l1 = l2 ∧ c1 = c2) ∧
    (∀ c : Int, 1 ≤ c → c ≤ 16 → cursorAddress 2 c = cursorAddress 1 c + 0x40) := by
  refine ⟨?_, ?_, ?_, ?_⟩
  · intro line col h
    unfold set_cursor_pos
    rw [if_pos (by omega)]
  · intro line col hl1 hl2 hc1 hc2
    exact set_cursor_pos_ok hl1 hl2 hc1 hc2
  · intro l1 c1 l2 c2 h1 h2 h3 h4 h5 h6 h7 h8 heq
    unfold cursorAddress at heq
    omega
  · intro c h1 h2
    unfold cursorAddress
    omega

/-- Witness for claim C5: out-of-range `(0,5)` fails, in-range `(2,3)` sends
its framed command, the address map separates `(2,5)` from itself only
trivially, and column 7 shows the `0x40` line offset. -/
theorem set_cursor_pos_spec_witness :
    set_cursor_pos 0 5 = Eff.fail ∧
    set_cursor_pos 2 3 = Eff.emit [0xFE, 0x45, cursorAddress 2 3] ∧
    ((2 : Int) = 2 ∧ (5 : Int) = 5) ∧
    cursorAddress 2 7 = cursorAddress 1 7 + 0x40 :=
  ⟨set_cursor_pos_spec.1 0 5 (by decide),
   set_cursor_pos_spec.2.1 2 3 (by decide) (by decide) (by decide) (by decide),
   set_cursor_pos_spec.2.2.1 2 5 2 5 (by decide) (by decide) (by decide)
     (by decide) (by decide) (by decide) (by decide) (by decide) rfl,
   set_cursor_pos_spec.2.2.2 7 (by decide) (by decide)⟩

/-- Claim C8: the encoder succeeds exactly on the union of the eight
slot-select code points, the special-symbol keys, and ASCII `[32,125]`
excluding backslash (92); on the plain ASCII part it returns the code point
unchanged. -/
theorem encoder_domain_spec :
    (∀ c : Char, (_get_char_code c).isSome ↔ supportedCodePoint c.toNat) ∧
    (∀ c : Char, 32 ≤ c.toNat → c.toNat ≤ 125 → c.toNat ≠ 92 →
        _get_char_code c = some c.toNat) :=
  ⟨fun c => getCharCodeN_isSome_iff c.toNat,
   fun _ h1 h2 h3 => getCharCodeN_ascii h1 h2 h3⟩

/-- Witness for claim C8: 'Ω' is encodable and sits in the legal set, '€' is
not encodable and sits outside it, and 'a' passes through as 97. -/
theorem encoder_domain_spec_witness :
    ((_get_char_code 'Ω').isSome ↔ supportedCodePoint 'Ω'.toNat) ∧
    ((_get_char_code '€').isSome ↔ supportedCodePoint '€'.toNat) ∧
    _get_char_code 'a' = some 'a'.toNat :=
  ⟨encoder_domain_spec.1 'Ω', encoder_domain_spec.1 '€',
   encoder_domain_spec.2 'a' (by decide) (by decide) (by decide)⟩

/-- Claim C9: `_send_cmd` frames every command as the escape byte `0xFE`,
the opcode, then the parameter bytes in order, one channel write per byte;
each repeat-count shift operation issues exactly `N` independent single-step
framed commands, and `N ≤ 0` issues zero writes. -/
theorem framed_command_spec :
    (∀ (cmd : Nat) (params : List Nat),
        _send_cmd cmd params = Eff.emit (0xFE :: cmd :: params)) ∧
    (∀ n : Int, shift_cursor_left n =
        ⟨(List.replicate n.toNat [0xFE, 0x49]).flatten, some ()⟩) ∧
    (∀ n : Int, shift_cursor_right n =
        ⟨(List.replicate n.toNat [0xFE, 0x4A]).flatten, some ()⟩) ∧
    (∀ n : Int, shift_display_left n =
        ⟨(List.replicate n.toNat [0xFE, 0x55]).flatten, some ()⟩) ∧
    (∀ n : Int, shift_display_right n =
        ⟨(List.replicate n.toNat [0xFE, 0x56]).flatten, some ()⟩) ∧
    (∀ n : Int, n ≤ 0 →
        shift_cursor_left n = ⟨[], some ()⟩ ∧
        shift_cursor_right n = ⟨[], some ()⟩ ∧
        shift_display_left n = ⟨[], some ()⟩ ∧
        shift_display_right n = ⟨[], some ()⟩) := by
  have hz : ∀ n : Int, n ≤ 0 → n.toNat = 0 := fun n h => by omega
  refine ⟨fun _ _ => rfl, fun n => repeatCmd_spec 0x49 n.toNat,
    fun n => repeatCmd_spec 0x4A n.toNat, fun n => repeatCmd_spec 0x55 n.toNat,
    fun n => repeatCmd_spec 0x56 n.toNat, fun n h => ?_⟩
  refine ⟨?_, ?_, ?_, ?_⟩ <;>
    simp [shift_cursor_left, shift_cursor_right, shift_display_left,
      shift_display_right, hz n h, repeatCmd_spec]

/-- Witness for claim C9: two left shifts put two framed commands on the
wire; a shift by `-3` writes nothing. -/
theorem framed_command_spec_witness :
    shift_cursor_left 2 =
      ⟨(List.replicate (Int.toNat 2) [0xFE, 0x49]).flatten, some ()⟩ ∧
    shift_display_right (-3) = ⟨[], some ()⟩ :=
  ⟨framed_command_spec.2.1 2,
   (framed_command_spec.2.2.2.2.2 (-3) (by decide)).2.2.2⟩

/-- Claim C3, counterexample: `write_line` on an 18-character centered
message computes start column 0, raises the bounds error — but only after
the whole clear-line sequence went out on the wire; and `write` on a message
whose second character is the unsupported backslash raises after the first
character's byte was written.  Both refute "zero transport writes before
raising". -/
theorem validation_prewrite_counterexample :
    (write_line "AAAAAAAAAAAAAAAAAA" 1 true).result = none ∧
    (write_line "AAAAAAAAAAAAAAAAAA" 1 true).trace = lineClearBytes 1 ∧
    lineClearBytes 1 ≠ [] ∧
    (write "a\\b".data).result = none ∧
    (write "a\\b".data).trace = [97] := by
  decide

/-- Claim C3, amended: the parameterized framed commands (`set_cursor_pos`,
`set_contrast`, `set_backlight_brightness`, `load_custom_character`,
`write_char_from_code`) validate before any channel write; but `write_line`
emits the whole clear-line sequence before validating the computed start
column, and `write` emits the bytes of the preceding characters before
raising on an unsupported character. -/
theorem validation_prewrite_amended :
    (∀ line col : Int, (set_cursor_pos line col).result = none →
        (set_cursor_pos line col).trace = []) ∧
    (∀ n : Int, (set_contrast n).result = none → (set_contrast n).trace = []) ∧
    (∀ n : Int, (set_backlight_brightness n).result = none →
        (set_backlight_brightness n).trace = []) ∧
    (∀ (s : Int) (bmp : List Int), (load_custom_character s bmp).result = none →
        (load_custom_character s bmp).trace = []) ∧
    (∀ n : Int, (write_char_from_code n).result = none →
        (write_char_from_code n).trace = []) ∧
    (∀ (pre : List Char) (c : Char) (post : List Char),
        (∀ d ∈ pre, (_get_char_code d).isSome) → _get_char_code c = none →
        write (pre ++ c :: post) = ⟨charBytes pre, none⟩) ∧
    ((write_line "AAAAAAAAAAAAAAAAAA" 1 true).result = none ∧
      (write_line "AAAAAAAAAAAAAAAAAA" 1 true).trace = lineClearBytes 1) := by
  refine ⟨?_, ?_, ?_, ?_, ?_, write_prefix_err, by decide⟩
  · intro line col h
    unfold set_cursor_pos at h ⊢
    split_ifs at h ⊢ <;> simp_all [_send_cmd]
  · intro n h
    unfold set_contrast at h ⊢
    split_ifs at h ⊢ <;> simp_all [_send_cmd]
  · intro n h
    unfold set_backlight_brightness at h ⊢
    split_ifs at h ⊢ <;> simp_all [_send_cmd]
  · intro s bmp h
    unfold load_custom_character at h ⊢
    split_ifs at h ⊢ <;> simp_all [_send_cmd]
  · intro n h
    unfold write_char_from_code at h ⊢
    split_ifs at h ⊢ <;> simp_all

/-- Witness for claim C3's amended theorem: concrete failing calls of each
primitive write nothing, while `write` on `a\b` writes the byte of 'a'
before raising. -/
theorem validation_prewrite_amended_witness :
    (set_cursor_pos 5 1).trace = [] ∧
    (set_contrast 0).trace = [] ∧
    (set_backlight_brightness 9).trace = [] ∧
    (load_custom_character 9 []).trace = [] ∧
    (write_char_from_code 256).trace = [] ∧
    write (['a'] ++ '\\' :: ['b']) = ⟨charBytes ['a'], none⟩ :=
  ⟨validation_prewrite_amended.1 5 1 (by decide),
   validation_prewrite_amended.2.1 0 (by decide),
   validation_prewrite_amended.2.2.1 9 (by decide),
   validation_prewrite_amended.2.2.2.1 9 [] (by decide),
   validation_prewrite_amended.2.2.2.2.1 256 (by decide),
   validation_prewrite_amended.2.2.2.2.2.1 ['a'] '\\' ['b'] (by decide) (by decide)⟩

/-- Claim C4: in preserve-words mode `disp_msg` clears the screen
(`0xFE 0x51`), homes the cursor (`0xFE 0x46`), splits the message into
words, and walks them exactly as `wordLayoutTrace` describes — separator
space unless the count is 16 or 0, reposition to line 2 column 1 when
`i + len(word) > 16`, count advancing by `len(word) + 1` — returning
`finalCount ≤ 33`. -/
theorem disp_msg_words_spec (msg : String)
    (hsupp : ∀ w ∈ pythonSplit msg.data, ∀ c ∈ w, (_get_char_code c).isSome) :
    disp_msg msg true =
      ⟨[0xFE, 0x51] ++ [0xFE, 0x46] ++ wordLayoutTrace (pythonSplit msg.data) 0,
        some (decide (finalCount (pythonSplit msg.data) ≤ 33))⟩ := by
  rw [disp_msg_true_eq, dispWords_ok (pythonSplit msg.data) 0 hsupp]
  simp [finalCount]

/-- Witness for claim C4: `disp_msg "ab cd" True` writes "ab", one
separator space, "cd", ends with running count 6 and returns `true`. -/
theorem disp_msg_words_spec_witness :
    disp_msg "ab cd" true =
      ⟨[0xFE, 0x51] ++ [0xFE, 0x46] ++
        wordLayoutTrace (pythonSplit "ab cd".data) 0,
        some (decide (finalCount (pythonSplit "ab cd".data) ≤ 33))⟩ ∧
    finalCount (pythonSplit "ab cd".data) = 6 ∧
    (disp_msg "ab cd" true).result = some true := by
  have h := disp_msg_words_spec "ab cd" (by decide)
  exact ⟨h, by decide, by rw [h]; decide⟩

/-- Claim C6: `write_line` first clears the target line, positions the
cursor at the start column (1 left-aligned, `1 + (16 - len) / 2` centered,
floor division), writes the whole text untruncated, and returns `true`
exactly when the text is at most 16 characters. -/
theorem write_line_spec (msg : String) (line : Int) (centered : Bool)
    (hl1 : 1 ≤ line) (hl2 : line ≤ 2)
    (hs1 : 1 ≤ startColumn msg.length centered)
    (hs2 : startColumn msg.length centered ≤ 16)
    (hsupp : ∀ c ∈ msg.data, (_get_char_code c).isSome) :
    write_line msg line centered =
      ⟨lineClearBytes line ++
        [0xFE, 0x45, cursorAddress line (startColumn msg.length centered)] ++
        charBytes msg.data,
        some (decide (msg.length ≤ 16))⟩ ∧
    ((write_line msg line centered).result = some true ↔ msg.length ≤ 16) := by
  have hsc : set_cursor_pos line (startColumn msg.length centered) =
      Eff.emit [0xFE, 0x45, cursorAddress line (startColumn msg.length centered)] :=
    set_cursor_pos_ok hl1 hl2 hs1 hs2
  have hw : write msg.data = ⟨charBytes msg.data, some ()⟩ := write_ok msg.data hsupp
  have hdec : decide (((msg.length : Int)) ≤ 16) = decide (msg.length ≤ 16) :=
    decide_eq_decide.mpr (by omega)
  have hmain : write_line msg line centered =
      ⟨lineClearBytes line ++
        [0xFE, 0x45, cursorAddress line (startColumn msg.length centered)] ++
        charBytes msg.data,
        some (decide (msg.length ≤ 16))⟩ := by
    unfold write_line startColumn at *
    rw [clear_line_ok hl1 hl2]
    simp only [bind_eq_bindE, bindE_mk_some, hsc, hw, bindE_emit, emit_trace,
      emit_result, pure_eff, hdec]
    simp
  exact ⟨hmain, by rw [hmain]; simp⟩

/-- Witness for claim C6: `write_line("HELLO", 1, centered=True)` clears
line 1, starts at column 6, writes all five characters and returns `true`. -/
theorem write_line_spec_witness :
    write_line "HELLO" 1 true =
      ⟨lineClearBytes 1 ++
        [0xFE, 0x45, cursorAddress 1 (startColumn "HELLO".length true)] ++
        charBytes "HELLO".data,
        some (decide ("HELLO".length ≤ 16))⟩ ∧
    startColumn "HELLO".length true = 6 ∧
    ((write_line "HELLO" 1 true).result = some true ↔ "HELLO".length ≤ 16) := by
  have h := write_line_spec "HELLO" 1 true (by decide) (by decide) (by decide)
    (by decide) (by decide)
  exact ⟨h.1, by decide, h.2⟩

/-- Claim C7: in character mode `disp_msg` clears the screen, homes the
cursor, streams the message's characters in order with exactly one
reposition to line 2 column 1 immediately before the character at index 16
(none when the message fits one line), and returns `len ≤ 32`. -/
theorem disp_msg_chars_spec (msg : String)
    (hsupp : ∀ c ∈ msg.data, (_get_char_code c).isSome) :
    (disp_msg msg false).result = some (decide (msg.length ≤ 32)) ∧
    (msg.length ≤ 16 →
      (disp_msg msg false).trace =
        [0xFE, 0x51, 0xFE, 0x46] ++ charBytes msg.data) ∧
    (16 < msg.length →
      (disp_msg msg false).trace =
        [0xFE, 0x51, 0xFE, 0x46] ++ charBytes (msg.data.take 16) ++
          [0xFE, 0x45, 0x40] ++ charBytes (msg.data.drop 16)) := by
  have h := dispChars_spec msg.data 0 (by omega) hsupp
  simp only [Nat.sub_zero] at h
  have hd : disp_msg msg false =
      ⟨[0xFE, 0x51] ++ [0xFE, 0x46] ++
        (charBytes (msg.data.take 16) ++
          (if msg.data.length ≤ 16 then [] else [0xFE, 0x45, 0x40]) ++
          charBytes (msg.data.drop 16)),
        some (decide (msg.length ≤ 32))⟩ := by
    rw [disp_msg_false_eq, h]
    simp
  refine ⟨by rw [hd], ?_, ?_⟩
  · intro hle
    have hle' : msg.data.length ≤ 16 := hle
    rw [hd]
    simp [hle, hle', List.take_of_length_le hle', List.drop_eq_nil_of_le hle',
      charBytes]
  · intro hgt
    have hgt' : ¬ msg.data.length ≤ 16 := by
      have : 16 < msg.data.length := hgt
      omega
    have hgt2 : ¬ msg.length ≤ 16 := by omega
    rw [hd]
    simp [hgt', hgt2]

/-- Witness for claim C7: a 40-character message writes 16 characters on
line 1, jumps to line 2 column 1, writes the remaining 24, and returns
`false`. -/
theorem disp_msg_chars_spec_witness :
    (disp_msg (String.mk (List.replicate 40 'A')) false).result = some false ∧
    (disp_msg (String.mk (List.replicate 40 'A')) false).trace =
      [0xFE, 0x51, 0xFE, 0x46] ++
        charBytes ((List.replicate 40 'A').take 16) ++ [0xFE, 0x45, 0x40] ++
        charBytes ((List.replicate 40 'A').drop 16) := by
  have h := disp_msg_chars_spec (String.mk (List.replicate 40 'A')) (by decide)
  refine ⟨?_, h.2.2 (by decide)⟩
  rw [h.1]
  decide

/-- Claim C10: preserve-words layout depends on the message only through
`split()`: messages with equal word lists produce identical transport bytes
and the same fits value; the words themselves are nonempty and contain no
whitespace (so no whitespace of the input is transmitted except the inserted
single-space separators), and `"a  b"`, `" a b "` and `"a\nb"` all split to
`["a", "b"]`. -/
theorem word_split_normalization :
    (∀ m1 m2 : String, pythonSplit m1.data = pythonSplit m2.data →
        disp_msg m1 true = disp_msg m2 true) ∧
    (∀ (s : List Char), ∀ w ∈ pythonSplit s,
        w ≠ [] ∧ ∀ c ∈ w, isPySpace c = false) ∧
    (pythonSplit "a  b".data = [['a'], ['b']] ∧
      pythonSplit " a b ".data = [['a'], ['b']] ∧
      pythonSplit "a\nb".data = [['a'], ['b']]) := by
  refine ⟨?_, ?_, by decide⟩
  · intro m1 m2 h
    rw [disp_msg_true_eq, disp_msg_true_eq, h]
  · intro s w hw
    exact pythonSplitAux_words s [] (by simp) w hw

/-- Witness for claim C10: `"a  b"` and `"a\nb"` drive the display
identically, and the first word of `"a  b"` is nonempty and
whitespace-free. -/
theorem word_split_normalization_witness :
    disp_msg "a  b" true = disp_msg "a\nb" true ∧
    (['a'] ≠ ([] : List Char) ∧ ∀ c ∈ ['a'], isPySpace c = false) :=
  ⟨word_split_normalization.1 "a  b" "a\nb" (by decide),
   word_split_normalization.2.1 "a  b".data ['a'] (by decide)⟩

end NHD0216K3Z
